import Mathlib

/-!
Verification of the image-synthesis core of the In-Silico-Microscopy
repository (file `siliscopy/plot_image.py`), as a shallow embedding over
exact rationals.  Python floats are modelled as `ℚ`; numpy 2D arrays as a
`Grid` structure (shape plus a total cell function); exceptions as
`Except Err`; the random samplers of the noise injector as explicitly
passed sample functions.  Each definition mirrors the corresponding Python
function line by line; deviations forced by totality are noted in place.
-/

namespace Siliscopy

/-- `small=1E-10` (module-level constant of plot_image.py). -/
def small : ℚ := 1 / 10000000000

/-- Python float `%` with a positive modulus: result in `[0, m)`.
Used for the `(h*6)%2` and `(...)%6` expressions of the codec. -/
def pymod (a m : ℚ) : ℚ := a - m * (Rat.floor (a / m) : ℤ)

/-- Python `max(a,b)`: keeps the current value unless the next is
strictly greater (so ties resolve to the first argument). -/
def pymax (a b : ℚ) : ℚ := if a < b then b else a

/-- Python `min(a,b)`. -/
def pymin (a b : ℚ) : ℚ := if b < a then b else a

/-- Python `abs`. -/
def pyabs (x : ℚ) : ℚ := if x < 0 then -x else x

/-- Error taxonomy of the exceptions raised by plot_image.py, one
constructor per distinct `raise` site modelled here. -/
inductive Err where
  /-- hsv2rgb: "h, s, or v > 1" -/
  | hsvRange : Err
  /-- rgb2hsv: "r, g, or b > 1" -/
  | rgbRange : Err
  /-- get_grey_img: more than one timestep for a simulation without time -/
  | timeArg : Err
  /-- add_color (mt): "Color's Value is more than 1!" -/
  | valueRange : Err
  /-- add_color (mt): saturation outside [0,1] -/
  | satRange : Err
deriving DecidableEq

instance {ε α : Type} [DecidableEq ε] [DecidableEq α] : DecidableEq (Except ε α) := by
  intro a b
  cases a with
  | ok x =>
    cases b with
    | ok y => exact if h : x = y then .isTrue (by rw [h]) else .isFalse (by simp [h])
    | error _ => exact .isFalse (by simp)
  | error x =>
    cases b with
    | ok _ => exact .isFalse (by simp)
    | error y => exact if h : x = y then .isTrue (by rw [h]) else .isFalse (by simp [h])

/-- `hsv2rgb(h,s,v)` of plot_image.py (lines 315-352): six-sector
HSV→RGB conversion; raises when any input exceeds 1. -/
def hsv2rgb (h s v : ℚ) : Except Err (ℚ × ℚ × ℚ) :=
  if h > 1 ∨ s > 1 ∨ v > 1 then .error .hsvRange
  else
    let A1 := v
    let A2 := v * (1 - s * pyabs (pymod (h * 6) 2 - 1))
    let A3 := v * (1 - s)
    if h < 1/6 then .ok (A1, A2, A3)
    else if h < 2/6 then .ok (A2, A1, A3)
    else if h < 3/6 then .ok (A3, A1, A2)
    else if h < 4/6 then .ok (A3, A2, A1)
    else if h < 5/6 then .ok (A2, A3, A1)
    else .ok (A1, A3, A2)

/-- `rgb2hsv(r,g,b)` of plot_image.py (lines 354-394).  Note: the source
computes `h=(((b-r)/delta)%6)/6.` for the green maximum and
`h=(((r-g)/delta)%6)/6.` for the blue maximum, without the `+2` / `+4`
sector offsets of the standard six-sector formula; this embedding keeps
that behaviour.  `Cmax` is compared against `r`, `g`, `b` in that order,
as in the Python `elif` chain. -/
def rgb2hsv (r g b : ℚ) : Except Err (ℚ × ℚ × ℚ) :=
  if r > 1 ∨ g > 1 ∨ b > 1 then .error .rgbRange
  else
    let Cmax := pymax (pymax r g) b
    let Cmin := pymin (pymin r g) b
    let delta := Cmax - Cmin
    let h : ℚ :=
      if delta < 1/1000000 then 0
      else if Cmax = r then pymod ((g - b) / delta) 6 / 6
      else if Cmax = g then pymod ((b - r) / delta) 6 / 6
      else pymod ((r - g) / delta) 6 / 6
    let s : ℚ := if Cmax = 0 then 0 else delta / Cmax
    .ok (h, s, Cmax)

end Siliscopy

namespace Siliscopy

/-- A 2D numpy array of intensities: a shape together with a total cell
function (out-of-range cells are irrelevant junk). -/
structure Grid where
  rows : ℕ
  cols : ℕ
  val : ℕ → ℕ → ℚ

/-! ## Intensity accumulator (`get_grey_img`, lines 79-127) -/

/-- One sample's effect on a pixel's `(IMG, Cnt)` pair (the body of the
per-sample loop of `get_grey_img`, lines 106-113): `I=foo[k]*I0`; if
`I>1` add `1.0` and count; elif `I>=-small` add `I` and count; else (white
frame) do nothing. -/
def accumStep (I0 : ℚ) (acc : ℚ × ℕ) (raw : ℚ) : ℚ × ℕ :=
  let I := raw * I0
  if 1 < I then (acc.1 + 1, acc.2 + 1)
  else if -small ≤ I then (acc.1 + I, acc.2 + 1)
  else acc

/-- The accumulated `(IMG[j,k], Cnt[j,k])` after all `T` raw samples of
one pixel. -/
def accumPixel (I0 : ℚ) (samples : List ℚ) : ℚ × ℕ :=
  samples.foldl (accumStep I0) (0, 0)

/-- The final pixel value of `get_grey_img` (lines 116-124): average when
the count is positive, otherwise `-1` in frame-preserving mode and
`frame_col` otherwise. -/
def greyPixel (I0 : ℚ) (samples : List ℚ) (frame : Bool) (frame_col : ℚ) : ℚ :=
  let a := accumPixel I0 samples
  if 0 < a.2 then a.1 / (a.2 : ℚ)
  else if frame then -1 else frame_col

/-! ## Noise injector (`add_noise`, lines 487-527) -/

/-- The Python index `int(dims/2)-1` used by `add_noise` to pick the
central row/column, as a `ℕ`: for `dims ≥ 2` it is `dims/2 - 1`; for
`dims = 1` Python's `-1` wraps around to the last (= only) index. -/
def pyIdx (n : ℕ) : ℕ := if n / 2 = 0 then n - 1 else n / 2 - 1

/-- The center scan of `add_noise` (lines 505-514) along one axis:
fold over indices `0..n-1` carrying `(x0, xL)`; a cell equal to `-1`
increments `x0` while `xL` is still `0`, a cell `> -0.5` increments
`xL`, anything else changes nothing. -/
def detect (f : ℕ → ℚ) (n : ℕ) : ℕ × ℕ :=
  (List.range n).foldl
    (fun s i =>
      if f i = -1 ∧ s.2 = 0 then (s.1 + 1, s.2)
      else if -(1/2) < f i then (s.1, s.2 + 1)
      else s) (0, 0)

/-- The in-frame sub-rectangle `(x0, xL, y0, yL)` detected by
`add_noise`: rows are scanned down the central column
`int(dims[1]/2)-1`, columns along the central row `int(dims[0]/2)-1`. -/
def noiseRect (I : Grid) : ℕ × ℕ × ℕ × ℕ :=
  let xs := detect (fun i => I.val i (pyIdx I.cols)) I.rows
  let ys := detect (fun j => I.val (pyIdx I.rows) j) I.cols
  (xs.1, xs.2, ys.1, ys.2)

/-- The noisy value of one in-rectangle pixel (lines 517-523):
`G + poi*P/255 + I*(1-poi)`, then clamped above to 1 and below to 0.
`P` is the Poisson sample (drawn with rate `255*I`) and `G` the zero-mean
Gaussian sample; both samplers are abstracted as given sample values. -/
def noisyVal (poi v P G : ℚ) : ℚ :=
  if 1 < G + poi * P / 255 + v * (1 - poi) then 1
  else if G + poi * P / 255 + v * (1 - poi) < 0 then 0
  else G + poi * P / 255 + v * (1 - poi)

/-- `add_noise(I, poi, gauss)` (lines 487-527) with the per-pixel random
samples passed in as functions `P` (Poisson) and `Gs` (Gaussian): pixels
inside the detected rectangle `[x0, x0+xL) × [y0, y0+yL)` are replaced by
their noisy clamped value; all other pixels are left unmodified. -/
def add_noise (I : Grid) (poi : ℚ) (P Gs : ℕ → ℕ → ℚ) : Grid :=
  let r := noiseRect I
  ⟨I.rows, I.cols, fun i j =>
    if r.1 ≤ i ∧ i < r.1 + r.2.1 ∧ r.2.2.1 ≤ j ∧ j < r.2.2.1 + r.2.2.2 then
      noisyVal poi (I.val i j) (P i j) (Gs i j)
    else I.val i j⟩

/-! ## `get_grey_img` (lines 26-127) -/

/-- The grid accumulated by the main loops of `get_grey_img` (lines
82-124), before optional noise injection, with the external sample
reader abstracted as `data t j k` (the raw value read for averaging step
`t` at pixel `(j,k)`, i.e. what the `.dat` file for timestep `ti+t`
holds there). -/
def greyImg (I0 : ℚ) (T : ℕ) (rows cols : ℕ) (data : ℕ → ℕ → ℕ → ℚ)
    (frame : Bool) (frame_col : ℚ) : Grid :=
  ⟨rows, cols, fun j k =>
    greyPixel I0 ((List.range T).map (fun t => data t j k)) frame frame_col⟩

/-- `get_grey_img` (lines 26-127): the argument check of lines 79-81
comes first; then every pixel is accumulated over the `T` samples; then,
when `noise` is set, `add_noise` is applied (lines 125-126). -/
def get_grey_img (I0 : ℚ) (T : ℕ) (ti : ℤ) (rows cols : ℕ)
    (data : ℕ → ℕ → ℕ → ℚ) (frame : Bool) (frame_col : ℚ)
    (noise : Bool) (poi : ℚ) (P Gs : ℕ → ℕ → ℚ) : Except Err Grid :=
  if ti < 0 ∧ 1 < T then .error .timeArg
  else .ok (if noise then add_noise (greyImg I0 T rows cols data frame frame_col) poi P Gs
            else greyImg I0 T rows cols data frame frame_col)

/-- Whether an `Except` result is an error. -/
def isErr {α : Type} : Except Err α → Bool
  | .error _ => true
  | .ok _ => false

/-- Read one cell out of a possibly-failed grid computation. -/
def greyCell (r : Except Err Grid) (i j : ℕ) : Option ℚ :=
  match r with
  | .ok g => some (g.val i j)
  | .error _ => none

/-! ## Bounding-box extractor (`get_bounds`, lines 568-637), 2D `YX` case -/

/-- Number of leading indices `k, k+1, ...` (at most `n` of them) whose
cell equals the sentinel `-1`: one of the four `for ... if ... else:
break` scans of `get_bounds`. -/
def countLeadFrom (f : ℕ → ℚ) : ℕ → ℕ → ℕ
  | _, 0 => 0
  | k, n + 1 => if f k = -1 then countLeadFrom f (k + 1) n + 1 else 0

/-- The Python mid-index `int(x/2+0.5)` of `sha_mid` for a nonnegative
integer `x`, which equals `(x+1)/2` in integer arithmetic. -/
def pymid (n : ℕ) : ℕ := (n + 1) / 2

/-- `get_bounds(IMG, 'YX')` (the 2D branch, lines 612-637).  The four
scans count leading sentinels along the central row `sha_mid[0]`
(left/right) and the central column `sha_mid[1]` (top/bottom).  As in the
source, the second entry starts from `sha[0]` and the fourth from
`sha[1]` (`a=[0,sha[0],0,sha[1]]`), even though the second scan runs over
the `sha[1]` columns — the known index quirk is preserved here. -/
def get_bounds_YX (I : Grid) : List ℤ :=
  [(countLeadFrom (fun i => I.val (pymid I.rows) i) 0 I.cols : ℤ),
   (I.rows : ℤ) - (countLeadFrom (fun i => I.val (pymid I.rows) (I.cols - 1 - i)) 0 I.cols : ℤ),
   (countLeadFrom (fun i => I.val i (pymid I.cols)) 0 I.rows : ℤ),
   (I.cols : ℤ) - (countLeadFrom (fun i => I.val (I.rows - 1 - i) (pymid I.cols)) 0 I.rows : ℤ)]

/-! ## Quantizer (`intensity2image`, lines 529-566), 2D `YX` case -/

/-- `np.iinfo('uint'+w).max`, the largest integer of an unsigned width. -/
def maxIntOfWidth (w : ℕ) : ℕ := 2 ^ w - 1

/-- One cell of `I=I*maxI; I[I>maxI]=maxI; I[I<0]=0` followed by the
integer cast: scale, clamp above to `maxI`, clamp below to `0`.  After
the clamps the value is nonnegative, so numpy's truncating `astype`
coincides with the floor used here. -/
def clampScale (maxI : ℕ) (x : ℚ) : ℚ :=
  let y := x * (maxI : ℚ)
  let y1 := if (maxI : ℚ) < y then (maxI : ℚ) else y
  if y1 < 0 then 0 else y1

/-- `intensity2image(I, dtype, axes='YX')`: the integer image together
with the bounds metadata; `get_bounds` is called on the *pre-scaled*
float grid (lines 552-556 run before the scaling of line 558). -/
def intensity2image_YX (I : Grid) (maxI : ℕ) : (ℕ → ℕ → ℤ) × List (List ℤ) :=
  (fun i j => Rat.floor (clampScale maxI (I.val i j)), [get_bounds_YX I])

/-! ## Multi-channel mixer (`add_color`, lines 396-485) -/

/-- The contributing intensities of one pixel under the `'mt'` policy:
the channels whose value exceeds `small`, in ascending order
(`Is=sorted(Is)`, line 451; membership test `IMGs[i,j,lam_id]>small`,
line 439). -/
def mtIs (chans : List ℚ) : List ℚ :=
  List.insertionSort (· ≤ ·) (chans.filter (fun x => small < x))

/-- `vres = Is[-1]` (line 458), the largest contributing intensity. -/
def mtV (chans : List ℚ) : ℚ := (mtIs chans).getD ((mtIs chans).length - 1) 0

/-- `sres` (lines 461-463): 1 unless more than two channels contribute,
in which case `1 - Is[-3]/Is[-1]`. -/
def mtS (chans : List ℚ) : ℚ :=
  if 2 < (mtIs chans).length then
    1 - (mtIs chans).getD ((mtIs chans).length - 3) 0 / mtV chans
  else 1

/-- The saturation/value part of the `'mt'` per-pixel computation
(lines 436-466): `none` models the `continue` of line 450 (no
contributing channel: the pixel stays black); otherwise the value check
of line 459, the saturation check of line 464, and on success the
`(sres, vres)` pair passed on to `hsv2rgb`.  The resultant hue `hres`
(trigonometric, lines 442-457) is not claimed about and is left out. -/
def mtPixelSV (chans : List ℚ) : Except Err (Option (ℚ × ℚ)) :=
  if (mtIs chans).length = 0 then .ok none
  else if 1 < mtV chans then .error .valueRange
  else if mtS chans < 0 ∨ 1 < mtS chans then .error .satRange
  else .ok (some (mtS chans, mtV chans))

/-- A channel stack: one list of per-channel intensities per pixel. -/
structure CGrid where
  rows : ℕ
  cols : ℕ
  chan : ℕ → ℕ → List ℚ

/-- `foo==0` of lines 426-430: `foo` stays 0 exactly when no channel
value exceeds `-small` at this pixel. -/
def allSent (chans : List ℚ) : Bool := chans.all (fun x => x ≤ -small)

/-- The first pass of `add_color` (lines 424-477) at one pixel, with the
per-pixel mixing policy body abstracted as `mix` (instantiated by
`rgbMixPixel` below for `mix_type='rgb'`; the `'mt'` body is
`mtPixelSV` composed with the hue computation and `hsv2rgb`): when every
channel reports the background sentinel the composite pixel is set to
`-1` on all three planes, otherwise the policy computes it. -/
def addColorRaw (mix : List ℚ → ℚ × ℚ × ℚ) (G : CGrid) (i j : ℕ) : ℚ × ℚ × ℚ :=
  if allSent (G.chan i j) then (-1, -1, -1) else mix (G.chan i j)

/-- The final pass of `add_color` (lines 479-483): every plane value
below `-small` is replaced by `frame_col`. -/
def resolveFrame (px : ℕ → ℕ → ℚ × ℚ × ℚ) (frame_col : ℚ) (i j : ℕ) : ℚ × ℚ × ℚ :=
  ((if (px i j).1 < -small then frame_col else (px i j).1),
   (if (px i j).2.1 < -small then frame_col else (px i j).2.1),
   (if (px i j).2.2 < -small then frame_col else (px i j).2.2))

/-- `add_color(IMGs, lam_hues, frame_col, mix_type)` at one pixel: the
first pass followed by the final background-resolution pass. -/
def add_color (mix : List ℚ → ℚ × ℚ × ℚ) (G : CGrid) (frame_col : ℚ) (i j : ℕ) : ℚ × ℚ × ℚ :=
  resolveFrame (addColorRaw mix G) frame_col i j

/-- The `mix_type='rgb'` per-pixel body (lines 469-477): sum of
`intensity × saturated-colour triple` over the channels, each component
clamped above to 1.  `cols` holds the precomputed `hsv2rgb(hue/360,1,1)`
triples of lines 418-422. -/
def rgbMixPixel (cols : List (ℚ × ℚ × ℚ)) (chans : List ℚ) : ℚ × ℚ × ℚ :=
  let rgb := (chans.zip cols).foldl
    (fun acc p => (acc.1 + p.1 * p.2.1, acc.2.1 + p.1 * p.2.2.1, acc.2.2 + p.1 * p.2.2.2))
    (0, 0, 0)
  (if 1 < rgb.1 then 1 else rgb.1,
   if 1 < rgb.2.1 then 1 else rgb.2.1,
   if 1 < rgb.2.2 then 1 else rgb.2.2)

/-- The 10×10 grid of the bounding-box test case: a border two pixels
wide of sentinel `-1`, foreground intensity 1/2 inside. -/
def grid10 : Grid :=
  ⟨10, 10, fun i j => if 2 ≤ i ∧ i ≤ 7 ∧ 2 ≤ j ∧ j ≤ 7 then 1/2 else -1⟩

/-- The three-cell grid of the quantizer test case: intensities
`1.0`, `1.2`, `-0.1`. -/
def uGrid : Grid :=
  ⟨1, 3, fun _ k => if k = 0 then 1 else if k = 1 then 6/5 else -(1/10)⟩

/-- Zero random samples, for concrete noise-free instantiations. -/
def P0 : ℕ → ℕ → ℚ := fun _ _ => 0

/-- The concrete grid produced by `get_grey_img` in the invariant
witness below. -/
def gwit : Grid := greyImg 1 1 1 1 (fun _ _ _ => 1/2) true 1

end Siliscopy

namespace Siliscopy

/-- C2.  The round-trip law fails on the code: for pure green
`(r,g,b) = (0,1,0)` — not a saturation-zero degenerate input, as
`delta = 1` — `rgb2hsv` returns hue 0 (its green-maximum branch omits the
`+2` sector offset of the standard formula), and decoding
`(h,s,v) = (0,1,1)` yields pure red `(1,0,0)` instead of reproducing
`(0,1,0)`.  The same happens for pure blue. -/
theorem rgb_roundtrip_bug :
    rgb2hsv 0 1 0 = .ok (0, 1, 1) ∧
    hsv2rgb 0 1 1 = .ok (1, 0, 0) ∧
    rgb2hsv 0 0 1 = .ok (0, 1, 1) := by with_unfolding_all decide

/-- The accumulation fold, characterized: starting from `(s, c)`, the sum
grows by the 1-clamped values of the samples scaled into `[-small, ∞)`
and the count by their number. -/
theorem accum_foldl (I0 : ℚ) (l : List ℚ) (s : ℚ) (c : ℕ) :
    l.foldl (accumStep I0) (s, c) =
      (s + (((l.map (fun r => r * I0)).filter (fun x => -small ≤ x)).map
              (fun x => min x 1)).sum,
       c + ((l.map (fun r => r * I0)).filter (fun x => -small ≤ x)).length) := by
  induction l generalizing s c with
  | nil => simp
  | cons r rs ih =>
    simp only [List.foldl_cons, List.map_cons, List.filter_cons, decide_eq_true_eq]
    rcases lt_or_le 1 (r * I0) with h1 | h1
    · have hk : -small ≤ r * I0 := by
        have hs : (0:ℚ) < small := by norm_num [small]
        linarith
      have hmin : min (r * I0) 1 = 1 := min_eq_right h1.le
      simp only [accumStep, if_pos h1, if_pos hk, ih, List.map_cons, List.sum_cons,
        List.length_cons, hmin]
      refine Prod.ext ?_ ?_ <;> simp <;> ring
    · rcases le_or_lt (-small) (r * I0) with hk | hk
      · have hmin : min (r * I0) 1 = r * I0 := min_eq_left h1
        simp only [accumStep, if_neg (not_lt.2 h1), if_pos hk, ih, List.map_cons,
          List.sum_cons, List.length_cons, hmin]
        refine Prod.ext ?_ ?_ <;> simp <;> ring
      · simp only [accumStep, if_neg (not_lt.2 h1), if_neg (not_le.2 hk), ih]

/-- C3.  Per-pixel semantics of the accumulator of `get_grey_img`:
samples whose scaled value lies in `[-small, 1]` are added and counted,
samples above 1 contribute exactly 1 and are counted (together: the
1-clamped values of the samples at least `-small`), samples below
`-small` contribute to neither; the output pixel is `sum/count` when the
count is positive, and otherwise `-1` in frame-preserving mode and the
configured background colour `frame_col` in composited mode. -/
theorem accumulator_per_pixel (I0 : ℚ) (samples : List ℚ) (frame : Bool) (fcol : ℚ) :
    accumPixel I0 samples =
      ((((samples.map (fun r => r * I0)).filter (fun x => -small ≤ x)).map
          (fun x => min x 1)).sum,
       ((samples.map (fun r => r * I0)).filter (fun x => -small ≤ x)).length) ∧
    greyPixel I0 samples frame fcol =
      (if 0 < ((samples.map (fun r => r * I0)).filter (fun x => -small ≤ x)).length
       then ((((samples.map (fun r => r * I0)).filter (fun x => -small ≤ x)).map
               (fun x => min x 1)).sum /
             (((samples.map (fun r => r * I0)).filter (fun x => -small ≤ x)).length : ℚ))
       else if frame then -1 else fcol) := by
  have h1 : accumPixel I0 samples =
      ((((samples.map (fun r => r * I0)).filter (fun x => -small ≤ x)).map
          (fun x => min x 1)).sum,
       ((samples.map (fun r => r * I0)).filter (fun x => -small ≤ x)).length) := by
    have := accum_foldl I0 samples 0 0
    simpa [accumPixel] using this
  refine ⟨h1, ?_⟩
  rw [greyPixel, h1]

/-- C4.  `get_grey_img` raises an error exactly when a sample count
`T > 1` is combined with the no-time-axis mode `ti < 0`; and in that case
the result is the argument error irrespective of any of the sample data,
i.e. before any accumulation work. -/
theorem get_grey_img_timecheck (I0 : ℚ) (T : ℕ) (ti : ℤ) (rows cols : ℕ)
    (data : ℕ → ℕ → ℕ → ℚ) (frame : Bool) (fcol : ℚ) (noise : Bool) (poi : ℚ)
    (P Gs : ℕ → ℕ → ℚ) :
    (isErr (get_grey_img I0 T ti rows cols data frame fcol noise poi P Gs) = true
      ↔ (ti < 0 ∧ 1 < T)) ∧
    (ti < 0 ∧ 1 < T →
      get_grey_img I0 T ti rows cols data frame fcol noise poi P Gs
        = .error .timeArg) := by
  unfold get_grey_img
  split
  · simp_all [isErr]
  · simp_all [isErr]

/-- C4 witness: `T = 2` with `ti = -1` is rejected. -/
theorem get_grey_img_timecheck_w :
    get_grey_img 1 2 (-1) 1 1 (fun _ _ _ => 0) true 1 false 0 P0 P0
      = .error .timeArg :=
  (get_grey_img_timecheck 1 2 (-1) 1 1 (fun _ _ _ => 0) true 1 false 0 P0 P0).2
    (by decide)

/-- C8.  `add_noise` modifies only pixels inside the detected in-frame
sub-rectangle `[x0, x0+xL) × [y0, y0+yL)`: every pixel strictly outside
it keeps its input value. -/
theorem add_noise_outside (I : Grid) (poi : ℚ) (P Gs : ℕ → ℕ → ℚ) (i j : ℕ)
    (h : i < (noiseRect I).1 ∨ (noiseRect I).1 + (noiseRect I).2.1 ≤ i ∨
         j < (noiseRect I).2.2.1 ∨ (noiseRect I).2.2.1 + (noiseRect I).2.2.2 ≤ j) :
    (add_noise I poi P Gs).val i j = I.val i j := by
  have hc : ¬((noiseRect I).1 ≤ i ∧ i < (noiseRect I).1 + (noiseRect I).2.1 ∧
      (noiseRect I).2.2.1 ≤ j ∧ j < (noiseRect I).2.2.1 + (noiseRect I).2.2.2) := by
    rcases h with h | h | h | h <;> omega
  simp only [add_noise]
  rw [if_neg hc]

/-- C8 witness: on an all-sentinel 2×2 grid the detected rectangle is
empty (`x0 = 2, xL = 0`), so the corner pixel is untouched. -/
theorem add_noise_outside_w :
    (add_noise ⟨2, 2, fun _ _ => -1⟩ 0 P0 P0).val 0 0 = -1 :=
  add_noise_outside ⟨2, 2, fun _ _ => -1⟩ 0 P0 P0 0 0
    (by with_unfolding_all decide)

/-- A list of values in `[0,1]` has its sum between 0 and its length. -/
theorem sum_mem_unit (l : List ℚ) (h : ∀ x ∈ l, 0 ≤ x ∧ x ≤ 1) :
    0 ≤ l.sum ∧ l.sum ≤ (l.length : ℚ) := by
  induction l with
  | nil => simp
  | cons a t ih =>
    have ha := h a (List.mem_cons_self a t)
    have ht := ih (fun x hx => h x (List.mem_cons_of_mem a hx))
    simp only [List.sum_cons, List.length_cons]
    push_cast
    constructor <;> linarith [ht.1, ht.2, ha.1, ha.2]

/-- A frame-preserving accumulator pixel is in `[0,1]` or exactly `-1`,
provided every scaled sample is nonnegative or reports absence. -/
theorem greyPixel_invariant (I0 : ℚ) (samples : List ℚ) (fcol : ℚ)
    (hdat : ∀ r ∈ samples, 0 ≤ r * I0 ∨ r * I0 < -small) :
    (0 ≤ greyPixel I0 samples true fcol ∧ greyPixel I0 samples true fcol ≤ 1) ∨
    greyPixel I0 samples true fcol = -1 := by
  have hchar := accum_foldl I0 samples 0 0
  simp only [zero_add] at hchar
  have hmem : ∀ y ∈ ((samples.map (fun r => r * I0)).filter
      (fun x => -small ≤ x)).map (fun x => min x 1), 0 ≤ y ∧ y ≤ 1 := by
    intro y hy
    rcases List.mem_map.1 hy with ⟨x, hx, rfl⟩
    rcases List.mem_filter.1 hx with ⟨hx1, hx2⟩
    rcases List.mem_map.1 hx1 with ⟨r, hr, rfl⟩
    have hge : -small ≤ r * I0 := by simpa using hx2
    have h0 : 0 ≤ r * I0 := by
      rcases hdat r hr with h | h
      · exact h
      · linarith
    exact ⟨le_min h0 zero_le_one, min_le_right _ _⟩
  have hsum := sum_mem_unit _ hmem
  rw [List.length_map] at hsum
  unfold greyPixel accumPixel
  rw [hchar]
  set kept := (samples.map (fun r => r * I0)).filter (fun x => -small ≤ x) with hk
  by_cases hpos : 0 < kept.length
  · left
    rw [if_pos hpos]
    have hc : (0:ℚ) < (kept.length : ℚ) := by exact_mod_cast hpos
    constructor
    · exact div_nonneg hsum.1 hc.le
    · rw [div_le_one hc]
      exact hsum.2
  · right
    rw [if_neg hpos]
    simp

/-- Every in-rectangle noisy pixel lies in `[0,1]` (the two clamps of
lines 520-523), whatever the random samples were. -/
theorem noisyVal_mem (poi v P G : ℚ) :
    0 ≤ noisyVal poi v P G ∧ noisyVal poi v P G ≤ 1 := by
  unfold noisyVal
  split_ifs with h1 h2
  · norm_num
  · norm_num
  · push_neg at h1 h2
    exact ⟨h2, h1⟩

/-- `add_noise` preserves the cell invariant: in-rectangle pixels are
clamped into `[0,1]` and all other pixels are unchanged. -/
theorem add_noise_invariant (I : Grid) (poi : ℚ) (P Gs : ℕ → ℕ → ℚ)
    (h : ∀ i j, (0 ≤ I.val i j ∧ I.val i j ≤ 1) ∨ I.val i j = -1) :
    ∀ i j, (0 ≤ (add_noise I poi P Gs).val i j ∧
        (add_noise I poi P Gs).val i j ≤ 1) ∨
      (add_noise I poi P Gs).val i j = -1 := by
  intro i j
  simp only [add_noise]
  split
  · exact Or.inl (noisyVal_mem _ _ _ _)
  · exact h i j

/-- C9 (amended).  Every grid produced by `get_grey_img` in
frame-preserving mode, with or without noise injection, has every cell in
`[0,1]` or exactly `-1` — provided every raw sample scaled by `I0` is
either nonnegative or reports absence (is below `-small`).  (Scaled
samples inside `[-small, 0)` are accumulated as-is and break the
invariant; see the counterexample.) -/
theorem grey_invariant (I0 : ℚ) (T : ℕ) (ti : ℤ) (rows cols : ℕ)
    (data : ℕ → ℕ → ℕ → ℚ) (fcol poi : ℚ) (noise : Bool) (P Gs : ℕ → ℕ → ℚ)
    (hdat : ∀ t j k, 0 ≤ data t j k * I0 ∨ data t j k * I0 < -small) :
    ∀ g, get_grey_img I0 T ti rows cols data true fcol noise poi P Gs = .ok g →
      ∀ i j, (0 ≤ g.val i j ∧ g.val i j ≤ 1) ∨ g.val i j = -1 := by
  intro g hg i j
  unfold get_grey_img at hg
  split at hg
  · exact absurd hg (by simp)
  · have hbase : ∀ a b : ℕ,
        (0 ≤ (greyImg I0 T rows cols data true fcol).val a b ∧
         (greyImg I0 T rows cols data true fcol).val a b ≤ 1) ∨
        (greyImg I0 T rows cols data true fcol).val a b = -1 := by
      intro a b
      show (0 ≤ greyPixel I0 ((List.range T).map (fun t => data t a b)) true fcol ∧
          greyPixel I0 ((List.range T).map (fun t => data t a b)) true fcol ≤ 1) ∨
        greyPixel I0 ((List.range T).map (fun t => data t a b)) true fcol = -1
      refine greyPixel_invariant I0 _ fcol ?_
      intro r hr
      rcases List.mem_map.1 hr with ⟨t, _, rfl⟩
      exact hdat t a b
    have hg2 := Except.ok.inj hg
    cases noise with
    | false =>
      rw [if_neg Bool.false_ne_true] at hg2
      rw [← hg2]
      exact hbase i j
    | true =>
      rw [if_pos rfl] at hg2
      rw [← hg2]
      exact add_noise_invariant _ _ _ _ (fun a b => hbase a b) i j

set_option maxRecDepth 10000 in
/-- C9 witness: a single in-range sample of value 1/2 yields a pixel
satisfying the invariant. -/
theorem grey_invariant_w :
    (0 ≤ gwit.val 0 0 ∧ gwit.val 0 0 ≤ 1) ∨ gwit.val 0 0 = -1 :=
  grey_invariant 1 1 0 1 1 (fun _ _ _ => 1/2) 1 0 false P0 P0
    (fun t j k => Or.inl (by norm_num)) gwit rfl 0 0

/-- C9 counterexample: the scaled sample `-1/20000000000` lies within the
tolerance (`-small ≤` it, so it does not report absence and the claim's
proviso holds), yet the produced cell equals `-1/20000000000`, which is
neither in `[0,1]` nor the sentinel `-1`. -/
theorem grey_invariant_cex :
    greyCell (get_grey_img 1 1 0 1 1 (fun _ _ _ => -(1/20000000000)) true 1 false 0 P0 P0)
        0 0 = some (-(1/20000000000)) ∧
    -small ≤ -(1/20000000000 : ℚ) ∧
    ¬((0 ≤ -(1/20000000000 : ℚ) ∧ -(1/20000000000 : ℚ) ≤ 1) ∨
      -(1/20000000000 : ℚ) = -1) := by
  refine ⟨?_, by norm_num [small], by norm_num⟩
  rw [get_grey_img, if_neg (by norm_num)]
  rw [if_neg Bool.false_ne_true]
  rw [greyCell]
  rw [show (greyImg 1 1 1 1 (fun _ _ _ => -(1/20000000000)) true 1).val 0 0 =
      greyPixel 1 [-(1/20000000000)] true 1 from by
    have h1 : List.range 1 = [0] := rfl
    simp [greyImg, h1]]
  rw [greyPixel, accumPixel]
  have hstep : accumStep 1 (0, 0) (-(1/20000000000)) = (-(1/20000000000), 1) := by
    rw [accumStep]
    norm_num [small]
  simp only [List.foldl_cons, List.foldl_nil, hstep]
  norm_num

/-- Unfolding step of one sentinel-counting scan. -/
theorem countLeadFrom_succ (f : ℕ → ℚ) (k n : ℕ) :
    countLeadFrom f k (n + 1) = if f k = -1 then countLeadFrom f (k + 1) n + 1 else 0 :=
  rfl

/-- A scan over at least three cells whose first two are sentinels and
whose third is not counts exactly 2. -/
theorem countLeadFrom_two (f : ℕ → ℚ) (n : ℕ) (h0 : f 0 = -1) (h1 : f 1 = -1)
    (h2 : f 2 ≠ -1) : countLeadFrom f 0 (n + 3) = 2 := by
  rw [countLeadFrom_succ, if_pos h0, countLeadFrom_succ, if_pos h1,
    countLeadFrom_succ, if_neg h2]

/-- C1 counterexample: on the 10×10 grid with a two-pixel sentinel
border (and foreground 1/2 inside, so the claim's premise holds, as the
first two conjuncts verify), `get_bounds` with the `YX` layout returns
`[2,8,2,8]` — the upper bounds are exclusive — and not the claimed
inclusive `[2,7,2,7]`. -/
theorem get_bounds_claim_cex :
    (∀ i < 10, ∀ j < 10, ¬(2 ≤ i ∧ i ≤ 7 ∧ 2 ≤ j ∧ j ≤ 7) → grid10.val i j = -1) ∧
    (∀ i < 10, ∀ j < 10, (2 ≤ i ∧ i ≤ 7 ∧ 2 ≤ j ∧ j ≤ 7) →
      0 ≤ grid10.val i j ∧ grid10.val i j ≤ 1) ∧
    get_bounds_YX grid10 = [2, 8, 2, 8] ∧
    get_bounds_YX grid10 ≠ [2, 7, 2, 7] :=
  ⟨by with_unfolding_all decide, by with_unfolding_all decide,
   by with_unfolding_all decide, by with_unfolding_all decide⟩

/-- C1 (amended).  For every 10×10 grid whose two-pixel border on each
side is the sentinel `-1` and whose interior is foreground (values in
`[0,1]`), `get_bounds` with the `YX` layout returns `[2,8,2,8]`: per
spatial axis the lower bound 2 is the first interior index (inclusive)
and the upper bound 8 is one past the last interior index 7
(exclusive). -/
theorem get_bounds_interior (I : Grid) (hr : I.rows = 10) (hc : I.cols = 10)
    (hb : ∀ i j, i < 10 → j < 10 → (i < 2 ∨ 7 < i ∨ j < 2 ∨ 7 < j) → I.val i j = -1)
    (hf : ∀ i j, 2 ≤ i → i ≤ 7 → 2 ≤ j → j ≤ 7 → 0 ≤ I.val i j ∧ I.val i j ≤ 1) :
    get_bounds_YX I = [2, 8, 2, 8] := by
  have hne : ∀ i j, 2 ≤ i → i ≤ 7 → 2 ≤ j → j ≤ 7 → I.val i j ≠ -1 := by
    intro i j h1 h2 h3 h4 he
    have h5 := (hf i j h1 h2 h3 h4).1
    rw [he] at h5
    norm_num at h5
  unfold get_bounds_YX
  simp only [hr, hc]
  have hmid : pymid 10 = 5 := rfl
  rw [hmid]
  have e1 : countLeadFrom (fun i => I.val 5 i) 0 10 = 2 :=
    countLeadFrom_two _ 7 (hb 5 0 (by norm_num) (by norm_num) (by norm_num))
      (hb 5 1 (by norm_num) (by norm_num) (by norm_num))
      (hne 5 2 (by norm_num) (by norm_num) (by norm_num) (by norm_num))
  have e2 : countLeadFrom (fun i => I.val 5 (10 - 1 - i)) 0 10 = 2 :=
    countLeadFrom_two _ 7 (hb 5 9 (by norm_num) (by norm_num) (by norm_num))
      (hb 5 8 (by norm_num) (by norm_num) (by norm_num))
      (hne 5 7 (by norm_num) (by norm_num) (by norm_num) (by norm_num))
  have e3 : countLeadFrom (fun i => I.val i 5) 0 10 = 2 :=
    countLeadFrom_two _ 7 (hb 0 5 (by norm_num) (by norm_num) (by norm_num))
      (hb 1 5 (by norm_num) (by norm_num) (by norm_num))
      (hne 2 5 (by norm_num) (by norm_num) (by norm_num) (by norm_num))
  have e4 : countLeadFrom (fun i => I.val (10 - 1 - i) 5) 0 10 = 2 :=
    countLeadFrom_two _ 7 (hb 9 5 (by norm_num) (by norm_num) (by norm_num))
      (hb 8 5 (by norm_num) (by norm_num) (by norm_num))
      (hne 7 5 (by norm_num) (by norm_num) (by norm_num) (by norm_num))
  rw [e1, e2, e3, e4]
  norm_num

/-- C1 witness: the concrete bordered grid satisfies the amended
bounds. -/
theorem get_bounds_interior_w : get_bounds_YX grid10 = [2, 8, 2, 8] :=
  get_bounds_interior grid10 rfl rfl
    (fun i j _ _ h => by
      simp only [grid10]
      rw [if_neg (by omega)])
    (fun i j h1 h2 h3 h4 => by
      simp only [grid10]
      rw [if_pos ⟨h1, h2, h3, h4⟩]
      norm_num)

/-- The two sequential clamps equal clamping into `[0, maxI]`. -/
theorem clampScale_eq (maxI : ℕ) (x : ℚ) :
    clampScale maxI x = max 0 (min (x * (maxI : ℚ)) (maxI : ℚ)) := by
  simp only [clampScale]
  rcases lt_or_le ((maxI : ℚ)) (x * (maxI : ℚ)) with h1 | h1
  · rw [if_pos h1, min_eq_right h1.le, if_neg (not_lt.2 (by positivity)),
      max_eq_right (by positivity)]
  · rw [if_neg (not_lt.2 h1), min_eq_left h1]
    rcases lt_or_le (x * (maxI : ℚ)) 0 with h2 | h2
    · rw [if_pos h2, max_eq_left h2.le]
    · rw [if_neg (not_lt.2 h2), max_eq_right h2]

/-- C7.  The quantizer scales by the largest representable integer of
the target width, clamps the scaled value into `[0, maxI]`, then casts
(truncation = floor on the clamped nonnegative value); its bounds
metadata is computed from the pre-scaled float grid; and with the 8-bit
width (`maxI = 2^8 - 1 = 255`) the intensities `1.0`, `1.2` and `-0.1`
map to `255`, `255` and `0`. -/
theorem intensity2image_spec (I : Grid) (maxI : ℕ) (i j : ℕ) :
    (intensity2image_YX I maxI).1 i j
      = Rat.floor (max 0 (min (I.val i j * (maxI : ℚ)) (maxI : ℚ))) ∧
    (intensity2image_YX I maxI).2 = [get_bounds_YX I] ∧
    maxIntOfWidth 8 = 255 ∧
    (intensity2image_YX uGrid (maxIntOfWidth 8)).1 0 0 = 255 ∧
    (intensity2image_YX uGrid (maxIntOfWidth 8)).1 0 1 = 255 ∧
    (intensity2image_YX uGrid (maxIntOfWidth 8)).1 0 2 = 0 := by
  refine ⟨?_, rfl, by with_unfolding_all decide, by with_unfolding_all decide,
    by with_unfolding_all decide, by with_unfolding_all decide⟩
  show Rat.floor (clampScale maxI (I.val i j)) = _
  rw [clampScale_eq]

/-- The contributing list is sorted ascending. -/
theorem mtIs_sorted (chans : List ℚ) : List.Sorted (· ≤ ·) (mtIs chans) :=
  List.sorted_insertionSort _ _

/-- Membership in the contributing list is membership in the filter. -/
theorem mtIs_mem (chans : List ℚ) (x : ℚ) :
    x ∈ mtIs chans ↔ x ∈ chans.filter (fun y => small < y) := by
  unfold mtIs
  exact List.mem_insertionSort _

/-- Every contributing intensity exceeds the tolerance. -/
theorem mtIs_pos (chans : List ℚ) : ∀ x ∈ mtIs chans, small < x := by
  intro x hx
  have hx2 := (mtIs_mem chans x).1 hx
  have := (List.mem_filter.1 hx2).2
  simpa using this

/-- Indexing the sorted contributing list is monotone. -/
theorem mtIs_getD_le_getD (chans : List ℚ) (a b : ℕ) (ha : a ≤ b)
    (hb : b < (mtIs chans).length) :
    (mtIs chans).getD a 0 ≤ (mtIs chans).getD b 0 := by
  have haa : a < (mtIs chans).length := lt_of_le_of_lt ha hb
  rw [List.getD_eq_getElem _ _ haa, List.getD_eq_getElem _ _ hb]
  rcases eq_or_lt_of_le ha with rfl | hlt
  · exact le_refl _
  · have hp := mtIs_sorted chans
    simpa [List.get_eq_getElem] using List.pairwise_iff_get.1 hp ⟨a, haa⟩ ⟨b, hb⟩ hlt

/-- In-range default-indexing hits a member of the list. -/
theorem mtIs_getD_mem (chans : List ℚ) (a : ℕ) (ha : a < (mtIs chans).length) :
    (mtIs chans).getD a 0 ∈ mtIs chans := by
  rw [List.getD_eq_getElem _ _ ha]
  exact List.getElem_mem _

/-- `Is[-1]` is a contributing intensity above the tolerance and is the
largest one. -/
theorem mtV_spec (chans : List ℚ) (hne : (mtIs chans).length ≠ 0) :
    mtV chans ∈ mtIs chans ∧ small < mtV chans ∧
      ∀ x ∈ mtIs chans, x ≤ mtV chans := by
  have hlt : (mtIs chans).length - 1 < (mtIs chans).length := by omega
  have hmem : mtV chans ∈ mtIs chans := by
    rw [mtV]
    exact mtIs_getD_mem chans _ hlt
  refine ⟨hmem, mtIs_pos chans _ hmem, ?_⟩
  intro x hx
  rcases List.mem_iff_get.1 hx with ⟨i, rfl⟩
  have hle : (mtIs chans).getD i 0 ≤ (mtIs chans).getD ((mtIs chans).length - 1) 0 :=
    mtIs_getD_le_getD chans i ((mtIs chans).length - 1) (by omega) hlt
  rw [List.getD_eq_getElem _ _ i.isLt] at hle
  rw [mtV]
  simpa [List.get_eq_getElem] using hle

/-- The computed saturation always lies in `[0,1]`: when three or more
channels contribute, `Is[-3]` is strictly positive and at most `Is[-1]`,
so `1 - Is[-3]/Is[-1] ∈ [0,1)`; otherwise the saturation is 1. -/
theorem mtS_range (chans : List ℚ) (hne : (mtIs chans).length ≠ 0) :
    0 ≤ mtS chans ∧ mtS chans ≤ 1 := by
  unfold mtS
  split_ifs with h3
  · have hlt1 : (mtIs chans).length - 1 < (mtIs chans).length := by omega
    have hlt3 : (mtIs chans).length - 3 < (mtIs chans).length := by omega
    have hmem3 := mtIs_getD_mem chans _ hlt3
    have hs0 : (0:ℚ) < small := by norm_num [small]
    have hpos3 : 0 < (mtIs chans).getD ((mtIs chans).length - 3) 0 := by
      have := mtIs_pos chans _ hmem3
      linarith
    have hposV : 0 < mtV chans := by
      have := (mtV_spec chans hne).2.1
      linarith
    have hle : (mtIs chans).getD ((mtIs chans).length - 3) 0 ≤ mtV chans := by
      rw [mtV]
      exact mtIs_getD_le_getD chans _ _ (by omega) hlt1
    have hdiv1 : (mtIs chans).getD ((mtIs chans).length - 3) 0 / mtV chans ≤ 1 :=
      (div_le_one hposV).2 hle
    have hdiv0 : 0 < (mtIs chans).getD ((mtIs chans).length - 3) 0 / mtV chans :=
      div_pos hpos3 hposV
    constructor <;> linarith
  · norm_num

/-- C10.  The saturation-range exception of the vector-hue branch is
unreachable: for every pixel the contributing intensities are collected
sorted and strictly positive, so whenever more than two channels
contribute, `Is[-3]` is a well-defined positive value at most `Is[-1]`
and the saturation `1 - Is[-3]/Is[-1]` lies in `[0,1]`; hence
`mtPixelSV` never returns the saturation error. -/
theorem mt_sat_error_unreachable (chans : List ℚ) :
    mtPixelSV chans ≠ .error .satRange := by
  unfold mtPixelSV
  split_ifs with h0 h1 h2
  · exact fun h => Except.noConfusion h
  · intro h
    have := Except.error.inj h
    cases this
  · have hs := mtS_range chans h0
    rcases h2 with h2 | h2
    · exact absurd h2 (not_lt.2 hs.1)
    · exact absurd h2 (not_lt.2 hs.2)
  · exact fun h => Except.noConfusion h

/-- C5.  Vector-hue mixing at a pixel with at least one channel above
the tolerance: the output value is the maximum contributing intensity; a
range error is raised exactly when it exceeds 1; otherwise the pixel
succeeds with saturation `mtS` — which is 1 when at most two channels
contribute and `1 - Is[-3]/Is[-1]` when three or more do; and for three
channels of intensity 1 (at any hues, e.g. 0°, 120°, 240°) the
saturation computes to 0. -/
theorem mt_value_saturation (chans : List ℚ) (h : ∃ x ∈ chans, small < x) :
    (mtV chans ∈ chans ∧ small < mtV chans ∧
      ∀ x ∈ chans, small < x → x ≤ mtV chans) ∧
    (1 < mtV chans → mtPixelSV chans = .error .valueRange) ∧
    (mtV chans ≤ 1 → mtPixelSV chans = .ok (some (mtS chans, mtV chans))) ∧
    mtPixelSV [1, 1, 1] = .ok (some (0, 1)) := by
  obtain ⟨x0, hx0, hx0s⟩ := h
  have hxm : x0 ∈ mtIs chans := by
    rw [mtIs_mem]
    exact List.mem_filter.2 ⟨hx0, by simpa using hx0s⟩
  have hne : (mtIs chans).length ≠ 0 := by
    intro hlen
    rw [List.length_eq_zero] at hlen
    rw [hlen] at hxm
    exact absurd hxm (List.not_mem_nil x0)
  have hVspec := mtV_spec chans hne
  refine ⟨⟨?_, hVspec.2.1, ?_⟩, ?_, ?_, by with_unfolding_all decide⟩
  · have := (mtIs_mem chans (mtV chans)).1 hVspec.1
    exact (List.mem_filter.1 this).1
  · intro x hx hxs
    exact hVspec.2.2 x ((mtIs_mem chans x).2 (List.mem_filter.2 ⟨hx, by simpa using hxs⟩))
  · intro hv
    unfold mtPixelSV
    rw [if_neg hne, if_pos hv]
  · intro hv
    have hs := mtS_range chans hne
    unfold mtPixelSV
    rw [if_neg hne, if_neg (not_lt.2 hv),
      if_neg (not_or.2 ⟨not_lt.2 hs.1, not_lt.2 hs.2⟩)]

/-- C5 witness: a single contributing channel of intensity 1/2 succeeds
with value 1/2 and saturation 1. -/
theorem mt_value_saturation_w :
    mtPixelSV [(1:ℚ)/2] = .ok (some (1, 1/2)) := by
  have h := (mt_value_saturation [(1:ℚ)/2]
      (by with_unfolding_all decide)).2.2.1 (by with_unfolding_all decide)
  rw [h]
  with_unfolding_all decide

/-- C6 counterexample: when the supplied background colour is itself
`-1` — exactly what `get_col_img` passes at line 312 — the all-sentinel
pixel is assigned `-1` again by the final pass, so a value below the
negative tolerance does survive in the returned composite. -/
theorem add_color_sentinel_cex :
    add_color (rgbMixPixel [(1, 0, 0)]) ⟨1, 1, fun _ _ => [-1]⟩ (-1) 0 0
      = (-1, -1, -1) ∧
    (-1 : ℚ) < -small := by
  with_unfolding_all decide

/-- C6 (amended).  In `add_color`, a pixel at which every channel
reports the background sentinel is first set to `-1` on all three RGB
planes and is then assigned the supplied background colour by the final
pass over the whole image; provided that colour is at least `-small`
(e.g. the default 1.0 — but not the `-1` that `get_col_img` supplies),
no value below the negative tolerance survives anywhere in the returned
composite. -/
theorem add_color_sentinel (mix : List ℚ → ℚ × ℚ × ℚ) (G : CGrid) (fc : ℚ) (i j : ℕ)
    (hall : ∀ x ∈ G.chan i j, x = -1) :
    addColorRaw mix G i j = (-1, -1, -1) ∧
    add_color mix G fc i j = (fc, fc, fc) ∧
    (-small ≤ fc → ∀ a b,
      -small ≤ (add_color mix G fc a b).1 ∧
      -small ≤ (add_color mix G fc a b).2.1 ∧
      -small ≤ (add_color mix G fc a b).2.2) := by
  have hs : allSent (G.chan i j) = true := by
    rw [allSent, List.all_eq_true]
    intro x hx
    rw [hall x hx]
    exact decide_eq_true (by norm_num [small])
  have h1 : addColorRaw mix G i j = (-1, -1, -1) := by
    rw [addColorRaw, if_pos hs]
  have hneg : (-1 : ℚ) < -small := by norm_num [small]
  refine ⟨h1, ?_, ?_⟩
  · rw [add_color, resolveFrame, h1]
    simp [hneg]
  · intro hfc a b
    rw [add_color, resolveFrame]
    dsimp only
    refine ⟨?_, ?_, ?_⟩ <;>
    · split_ifs with hcond
      · exact hfc
      · exact not_lt.1 hcond

/-- C6 witness: with background colour 1, the all-sentinel pixel
resolves to `(1,1,1)`. -/
theorem add_color_sentinel_w :
    add_color (rgbMixPixel [(1, 0, 0)]) ⟨1, 1, fun _ _ => [-1]⟩ 1 0 0 = (1, 1, 1) :=
  (add_color_sentinel (rgbMixPixel [(1, 0, 0)]) ⟨1, 1, fun _ _ => [-1]⟩ 1 0 0
    (by with_unfolding_all decide)).2.1

end Siliscopy
